import Mathlib

/-!
# Verification of the pbmon paste monitor

Shallow embedding of the pbmon repository (ilyaglow/pbmon), a pastebin
monitor.  The repository contains three variants of the monitor:

* the *cache* variant (`pbmon.go`): deduplication via a key → timestamp
  cache (bigcache) with timed eviction;
* the *non-persisted cursor* variant: a single in-memory `topKey` marker;
* the *state-file cursor* variant: the `topKey` marker persisted to a
  small file after each dispatched item, and the dispatch loop walks the
  detected slice backwards (oldest first).

HTTP transport, JSON decoding and the ticker are external collaborators;
they are modelled by passing each poll cycle's fetch outcome
(`Except String (List Paste)`) explicitly, and the raw-body fetch and the
user callback as fallible functions in an environment record.
-/

set_option autoImplicit false

namespace Pbmon

/-- A paste record as fetched from the scraping endpoint.  Only the unique
`key` and the publish timestamp `date` (the freshness token, compared via
`Date.String()` in the Go code, injectively modelled as a `Nat`) are
relevant to the monitor's logic. -/
structure Paste where
  key : String
  date : Nat
deriving Repr, DecidableEq

/-- Length in bytes of a pastebin paste identifier (`pasteIDLen`). -/
def pasteIDLen : Nat := 9

/-- Key of the first (newest) item of a window; `""` for an empty window.
The Go code only evaluates `pastes[0].Key` after a non-emptiness check. -/
def headKey : List Paste → String
  | [] => ""
  | p :: _ => p.key

/-- The scan loop of `fetchNewPastes` (both cursor variants):
`for i := range pastes { if pastes[i].Key == p.topKey { matchPos = i } }`
starting from `matchPos := len(pastes) - 1`.  `i` is the index of the head
of the remaining list, `acc` the current value of `matchPos`. -/
def matchPosAux (topKey : String) : List Paste → Nat → Nat → Nat
  | [], _, acc => acc
  | p :: rest, i, acc => matchPosAux topKey rest (i + 1) (if p.key = topKey then i else acc)

/-- Final value of `matchPos` after the scan loop. -/
def matchPos (pastes : List Paste) (topKey : String) : Nat :=
  matchPosAux topKey pastes 0 (pastes.length - 1)

/-- Model of `fetchNewPastes` of the non-persisted cursor variant, as a pure
function of the current marker and the fetched window.  Returns the new
items (still newest-first, exactly `pastes[0:matchPos]`) together with the
updated `topKey`; this variant always sets `p.topKey = pastes[0].Key`
after the scan. -/
def fetchNewPastesCursor (topKey : String) (pastes : List Paste) :
    Except String (List Paste × String) :=
  match pastes with
  | [] => .error "no pastes available"
  | p0 :: _ =>
    if topKey = "" then .ok ([], p0.key)
    else .ok (pastes.take (matchPos pastes topKey), p0.key)

/-- Model of `fetchNewPastes` of the state-file cursor variant.  Identical scan, but
the marker is *not* advanced here (outside the first-run branch): the
caller `do` advances `p.topKey` per successfully dispatched item. -/
def fetchNewPastesFile (topKey : String) (pastes : List Paste) :
    Except String (List Paste × String) :=
  match pastes with
  | [] => .error "no pastes available"
  | p0 :: _ =>
    if topKey = "" then .ok ([], p0.key)
    else .ok (pastes.take (matchPos pastes topKey), topKey)

/-- External collaborators of one monitor: `getRaw` is
`pbClient.GetRaw(key)` returning the paste body, `onNew` the user callback
`OnNew`, and `writeState` abstracts the three state-file operations of the
per-item persist step (`Truncate`, `Seek`, `WriteString`) into one fallible
write whose success makes the file content equal to the written key. -/
structure Env where
  getRaw : String → Except String String
  onNew : Paste → String → Except String Unit
  writeState : String → Except String Unit

/-- Mutable state of the state-file monitor: the in-memory `topKey` and the
content of the state file. -/
structure MonState where
  topKey : String
  fileContent : String
deriving Repr, DecidableEq

/-- Model of `processPaste`: fetch the raw body, then invoke the callback. -/
def processPaste (env : Env) (p : Paste) : Except String Unit :=
  match env.getRaw p.key with
  | .error e => .error ("pastebin.GetRaw: " ++ e)
  | .ok body => env.onNew p body

/-- The callback invocations `processPaste env p` performs: none when the
raw-body fetch fails, exactly one otherwise. -/
def invoked (env : Env) (p : Paste) : List Paste :=
  match env.getRaw p.key with
  | .error _ => []
  | .ok _ => [p]

/-- Both `processPaste` and the state write succeed on `p`. -/
def dispatchOk (env : Env) (p : Paste) : Prop :=
  processPaste env p = .ok () ∧ env.writeState p.key = .ok ()

/-- The per-item dispatch-and-persist loop of the state-file variant's
`do`, which iterates `for i := len(pastes)-1; i >= 0; i--`; here the
argument list is already in iteration (oldest-first) order.  Returns the
callback-invocation trace, the final monitor state and the loop outcome. -/
def dispatchAll (env : Env) : List Paste → MonState → List Paste × MonState × Except String Unit
  | [], st => ([], st, .ok ())
  | p :: rest, st =>
    match processPaste env p with
    | .error e => (invoked env p, st, .error ("process paste: " ++ e))
    | .ok _ =>
      match env.writeState p.key with
      | .error e => (invoked env p, st, .error e)
      | .ok _ =>
        let r := dispatchAll env rest ⟨p.key, p.key⟩
        (invoked env p ++ r.1, r.2.1, r.2.2)

/-- Forward dispatch loop (`for _, pp := range pastes`) of the cache
variant's and the non-persisted cursor variant's `Do`; no state writes. -/
def dispatchF (env : Env) : List Paste → List Paste × Except String Unit
  | [] => ([], .ok ())
  | p :: rest =>
    match processPaste env p with
    | .error e => (invoked env p, .error e)
    | .ok _ =>
      let r := dispatchF env rest
      (invoked env p ++ r.1, r.2)

/-- One `do` cycle of the state-file variant: fetch (its outcome supplied
as `recentRes`), detect via `fetchNewPastesFile`, then dispatch the
detected slice backwards with per-item persistence.  Error wrapping
follows the Go code (`"fetch pastes: %w"`, `"recent pastes: %w"`,
`"process paste: %w"`). -/
def doCycle (env : Env) (recentRes : Except String (List Paste)) (st : MonState) :
    List Paste × MonState × Except String Unit :=
  match recentRes with
  | .error e => ([], st, .error ("fetch pastes: recent pastes: " ++ e))
  | .ok pastes =>
    match fetchNewPastesFile st.topKey pastes with
    | .error e => ([], st, .error ("fetch pastes: " ++ e))
    | .ok (items, tk) => dispatchAll env items.reverse ⟨tk, st.fileContent⟩

/-- The state-file variant's `Do`: one `do` cycle per element of the fetch
outcome list (the initial synchronous call followed by the ticker calls,
all identical), stopping at — and returning — the first error. -/
def runDo (env : Env) : List (Except String (List Paste)) → MonState →
    List Paste × MonState × Except String Unit
  | [], st => ([], st, .ok ())
  | w :: ws, st =>
    let c := doCycle env w st
    match c.2.2 with
    | .error e => (c.1, c.2.1, .error e)
    | .ok _ =>
      let r := runDo env ws c.2.1
      (c.1 ++ r.1, r.2.1, r.2.2)

/-- One cycle of the non-persisted cursor variant: fetch, detect via
`fetchNewPastesCursor`, dispatch forward.  `Do` of this variant returns
fetch and dispatch errors unwrapped.  The `String` component is the
monitor's `topKey` after the cycle. -/
def doCycleCursor (env : Env) (recentRes : Except String (List Paste)) (topKey : String) :
    List Paste × String × Except String Unit :=
  match recentRes with
  | .error e => ([], topKey, .error e)
  | .ok pastes =>
    match fetchNewPastesCursor topKey pastes with
    | .error e => ([], topKey, .error e)
    | .ok (items, tk) =>
      let r := dispatchF env items
      (r.1, tk, r.2)

/-- The ticker loop of the non-persisted cursor variant's `Do`. -/
def runTicksCursor (env : Env) : List (Except String (List Paste)) → String →
    List Paste × String × Except String Unit
  | [], k => ([], k, .ok ())
  | w :: ws, k =>
    let c := doCycleCursor env w k
    match c.2.2 with
    | .error e => (c.1, c.2.1, .error e)
    | .ok _ =>
      let r := runTicksCursor env ws c.2.1
      (c.1 ++ r.1, r.2.1, r.2.2)

/-- Model of `Do` of the non-persisted cursor variant: one initial synchronous
`fetchNewPastes` whose detected items are discarded (`_, err := ...`),
then the ticker loop. -/
def DoCursor (env : Env) (first : Except String (List Paste))
    (ticks : List (Except String (List Paste))) (topKey : String) :
    List Paste × String × Except String Unit :=
  match first with
  | .error e => ([], topKey, .error e)
  | .ok pastes =>
    match fetchNewPastesCursor topKey pastes with
    | .error e => ([], topKey, .error e)
    | .ok (_, tk) => runTicksCursor env ticks tk

/-! ## Cache variant (`pbmon.go`)

The bigcache key → timestamp store is modelled as an association list
queried front-first; `Set` prepends, which has the same lookup semantics
as overwriting.  Timed eviction and bigcache-internal failures are not
modelled: the claims about the cache variant are scoped to within the
retention window. -/

/-- The key → freshness-token cache. -/
abbrev Cache := List (String × Nat)

/-- Model of `cache.Get`: first entry for the key, `none` standing for
`bigcache.ErrEntryNotFound`. -/
def cacheGet : Cache → String → Option Nat
  | [], _ => none
  | (k, v) :: c, key => if key = k then some v else cacheGet c key

/-- Model of `cache.Set`. -/
def cacheSet (c : Cache) (k : String) (v : Nat) : Cache :=
  (k, v) :: c

/-- Model of `fetchNewPastes` of the cache variant: walk the window in order; a key
missing from the cache or present with a changed timestamp is recorded and
appended to the new list; an unchanged timestamp is skipped. -/
def fetchNewPastesCache : Cache → List Paste → List Paste × Cache
  | c, [] => ([], c)
  | c, paste :: rest =>
    match cacheGet c paste.key with
    | some v =>
      if v = paste.date then fetchNewPastesCache c rest
      else
        let r := fetchNewPastesCache (cacheSet c paste.key paste.date) rest
        (paste :: r.1, r.2)
    | none =>
      let r := fetchNewPastesCache (cacheSet c paste.key paste.date) rest
      (paste :: r.1, r.2)

/-- One ticker cycle of the cache variant's `Do`: fetch, classify, dispatch
forward. -/
def cacheCycle (env : Env) (recentRes : Except String (List Paste)) (c : Cache) :
    List Paste × Cache × Except String Unit :=
  match recentRes with
  | .error e => ([], c, .error e)
  | .ok w =>
    let fc := fetchNewPastesCache c w
    let r := dispatchF env fc.1
    (r.1, fc.2, r.2)

/-- The ticker loop of the cache variant's `Do`. -/
def runTicksCache (env : Env) : List (Except String (List Paste)) → Cache →
    List Paste × Cache × Except String Unit
  | [], c => ([], c, .ok ())
  | w :: ws, c =>
    let cy := cacheCycle env w c
    match cy.2.2 with
    | .error e => (cy.1, cy.2.1, .error e)
    | .ok _ =>
      let r := runTicksCache env ws cy.2.1
      (cy.1 ++ r.1, r.2.1, r.2.2)

/-- Model of `Do` of the cache variant: the initial synchronous `fetchNewPastes`
records every classified item in the cache but its result list is
discarded; then the ticker loop runs. -/
def DoCache (env : Env) (first : Except String (List Paste))
    (ticks : List (Except String (List Paste))) (c : Cache) :
    List Paste × Cache × Except String Unit :=
  match first with
  | .error e => ([], c, .error e)
  | .ok w => runTicksCache env ticks (fetchNewPastesCache c w).2

/-! ## State-file round trip

`readState` reads the state file into a fixed `pasteIDLen`-byte zeroed
buffer with a single `Read` call, returns `""` on immediate EOF (empty
file) and otherwise converts the *whole* buffer, zero padding included.
File contents and keys are byte lists here. -/

/-- Result of `readState` on a file whose content is `content`. -/
def readState (content : List Nat) : List Nat :=
  if content = [] then []
  else content.take pasteIDLen ++ List.replicate (pasteIDLen - content.length) 0

/-- Content of the state file after the per-item persist step
(`Truncate(0)`, `Seek(0,0)`, `WriteString(key)`) wrote `key`. -/
def writeStateBytes (key : List Nat) : List Nat := key

/-! ## Helper lemmas: the scan loop -/

theorem matchPosAux_append (k : String) (l1 l2 : List Paste) (i acc : Nat) :
    matchPosAux k (l1 ++ l2) i acc = matchPosAux k l2 (i + l1.length) (matchPosAux k l1 i acc) := by
  induction l1 generalizing i acc with
  | nil => simp [matchPosAux]
  | cons p l1 ih =>
    simp only [List.cons_append, matchPosAux, List.length_cons, List.append_eq]
    rw [ih]
    have h : i + 1 + l1.length = i + (l1.length + 1) := by omega
    rw [h]

theorem matchPosAux_no_match (k : String) (l : List Paste) (i acc : Nat)
    (h : ∀ p ∈ l, p.key ≠ k) :
    matchPosAux k l i acc = acc := by
  induction l generalizing i acc with
  | nil => rfl
  | cons p rest ih =>
    have hp : p.key ≠ k := h p (by simp)
    simp only [matchPosAux, if_neg hp]
    exact ih _ _ (fun q hq => h q (by simp [hq]))

/-- When `k` occurs at position `l1.length` and nowhere later, the scan
loop ends with `matchPos` equal to that position. -/
theorem matchPos_found (k : String) (l1 l2 : List Paste) (p : Paste)
    (hp : p.key = k) (h2 : ∀ q ∈ l2, q.key ≠ k) :
    matchPos (l1 ++ p :: l2) k = l1.length := by
  unfold matchPos
  rw [matchPosAux_append]
  simp only [matchPosAux, if_pos hp]
  rw [matchPosAux_no_match k l2 _ _ h2]
  omega

/-- When `k` occurs nowhere in the window, `matchPos` keeps its initial
value `len - 1`. -/
theorem matchPos_not_found (k : String) (l : List Paste)
    (h : ∀ q ∈ l, q.key ≠ k) :
    matchPos l k = l.length - 1 :=
  matchPosAux_no_match k l 0 (l.length - 1) h

/-! ## Helper lemmas: the dispatch loops -/

/-- Monitor state after successfully dispatching and persisting every item
of `l` in order, starting from `st`. -/
def lastState (l : List Paste) (st : MonState) : MonState :=
  match l.getLast? with
  | none => st
  | some p => ⟨p.key, p.key⟩

theorem lastState_cons (p : Paste) (rest : List Paste) (st : MonState) :
    lastState (p :: rest) st = lastState rest ⟨p.key, p.key⟩ := by
  cases rest with
  | nil => rfl
  | cons q r =>
    unfold lastState
    rw [List.getLast?_cons_cons]
    cases hq : (q :: r).getLast? with
    | none => simp at hq
    | some x => rfl

theorem invoked_of_ok (env : Env) (p : Paste) (h : processPaste env p = .ok ()) :
    invoked env p = [p] := by
  unfold processPaste at h
  unfold invoked
  cases hg : env.getRaw p.key with
  | error e => rw [hg] at h; simp at h
  | ok body => rfl

theorem invoked_mem (env : Env) (p x : Paste) (h : x ∈ invoked env p) : x = p := by
  unfold invoked at h
  cases hg : env.getRaw p.key with
  | error e => rw [hg] at h; simp at h
  | ok body => rw [hg] at h; simpa using h

/-- Fully successful run of the backwards dispatch loop: every item is
dispatched in order and the last persisted key wins. -/
theorem dispatchAll_ok (env : Env) (l : List Paste) (st : MonState)
    (h : ∀ p ∈ l, dispatchOk env p) :
    dispatchAll env l st = (l, lastState l st, .ok ()) := by
  induction l generalizing st with
  | nil => rfl
  | cons p rest ih =>
    obtain ⟨hp, hw⟩ := h p (by simp)
    simp only [dispatchAll, hp, hw]
    rw [invoked_of_ok env p hp, ih ⟨p.key, p.key⟩ (fun q hq => h q (by simp [hq])),
      lastState_cons]
    rfl

/-- The backwards dispatch loop stops at the first `processPaste` failure:
the successful items before it are dispatched and persisted, the failing
item contributes its own callback invocations (none when the raw-body
fetch failed), the items after it are never touched, and the wrapped error
is returned. -/
theorem dispatchAll_fail_process (env : Env) (l1 : List Paste) (p : Paste)
    (l2 : List Paste) (st : MonState) (e : String)
    (h1 : ∀ q ∈ l1, dispatchOk env q) (hp : processPaste env p = .error e) :
    dispatchAll env (l1 ++ p :: l2) st =
      (l1 ++ invoked env p, lastState l1 st, .error ("process paste: " ++ e)) := by
  induction l1 generalizing st with
  | nil => simp only [List.nil_append, dispatchAll, hp]; rfl
  | cons q rest ih =>
    obtain ⟨hq, hw⟩ := h1 q (by simp)
    simp only [List.cons_append, dispatchAll, hq, hw, List.append_eq]
    rw [invoked_of_ok env q hq,
      ih ⟨q.key, q.key⟩ (fun r hr => h1 r (List.mem_cons_of_mem q hr)),
      lastState_cons]
    rfl

/-- The backwards dispatch loop stops at the first state-write failure,
after the item's callback already ran. -/
theorem dispatchAll_fail_write (env : Env) (l1 : List Paste) (p : Paste)
    (l2 : List Paste) (st : MonState) (e : String)
    (h1 : ∀ q ∈ l1, dispatchOk env q) (hp : processPaste env p = .ok ())
    (hw : env.writeState p.key = .error e) :
    dispatchAll env (l1 ++ p :: l2) st =
      (l1 ++ [p], lastState l1 st, .error e) := by
  induction l1 generalizing st with
  | nil =>
    simp only [List.nil_append, dispatchAll, hp, hw]
    rw [invoked_of_ok env p hp]
    rfl
  | cons q rest ih =>
    obtain ⟨hq, hqw⟩ := h1 q (by simp)
    simp only [List.cons_append, dispatchAll, hq, hqw, List.append_eq]
    rw [invoked_of_ok env q hq,
      ih ⟨q.key, q.key⟩ (fun r hr => h1 r (List.mem_cons_of_mem q hr)),
      lastState_cons]
    rfl

/-- Fully successful run of the forward dispatch loop. -/
theorem dispatchF_ok (env : Env) (l : List Paste)
    (h : ∀ p ∈ l, processPaste env p = .ok ()) :
    dispatchF env l = (l, .ok ()) := by
  induction l with
  | nil => rfl
  | cons p rest ih =>
    have hp := h p (by simp)
    simp only [dispatchF, hp]
    rw [invoked_of_ok env p hp, ih (fun q hq => h q (List.mem_cons_of_mem p hq))]
    rfl

/-- Every callback invocation of the forward dispatch loop is an item of
its argument list. -/
theorem dispatchF_trace_subset (env : Env) (l : List Paste) :
    ∀ x ∈ (dispatchF env l).1, x ∈ l := by
  induction l with
  | nil => intro x hx; simp [dispatchF] at hx
  | cons p rest ih =>
    intro x hx
    simp only [dispatchF] at hx
    cases hp : processPaste env p with
    | error e =>
      rw [hp] at hx
      simp only at hx
      exact (invoked_mem env p x hx) ▸ List.mem_cons_self p rest
    | ok u =>
      rw [hp] at hx
      simp only at hx
      rcases List.mem_append.mp hx with hx1 | hx2
      · exact (invoked_mem env p x hx1) ▸ List.mem_cons_self p rest
      · exact List.mem_cons_of_mem p (ih x hx2)

/-! ## Helper lemmas: one cycle of the state-file variant -/

theorem fetchNewPastesCursor_ne (topKey : String) (pastes : List Paste)
    (h : pastes ≠ []) (hm : topKey ≠ "") :
    fetchNewPastesCursor topKey pastes =
      .ok (pastes.take (matchPos pastes topKey), headKey pastes) := by
  cases pastes with
  | nil => exact absurd rfl h
  | cons p0 rest => simp [fetchNewPastesCursor, headKey, hm]

theorem fetchNewPastesFile_ne (topKey : String) (pastes : List Paste)
    (h : pastes ≠ []) (hm : topKey ≠ "") :
    fetchNewPastesFile topKey pastes =
      .ok (pastes.take (matchPos pastes topKey), topKey) := by
  cases pastes with
  | nil => exact absurd rfl h
  | cons p0 rest => simp [fetchNewPastesFile, hm]

/-- A cycle on a non-empty window with the marker unset: no dispatch, the
marker moves to the newest key, the state file is untouched. -/
theorem doCycle_first_run (env : Env) (pastes : List Paste) (fc : String)
    (h : pastes ≠ []) :
    doCycle env (.ok pastes) ⟨"", fc⟩ = ([], ⟨headKey pastes, fc⟩, .ok ()) := by
  cases pastes with
  | nil => exact absurd rfl h
  | cons p0 rest => simp [doCycle, fetchNewPastesFile, headKey, dispatchAll]

/-- A cycle on a non-empty window with the marker set reduces to the
backwards dispatch loop over the detected slice. -/
theorem doCycle_marker (env : Env) (pastes : List Paste) (m fc : String)
    (h : pastes ≠ []) (hm : m ≠ "") :
    doCycle env (.ok pastes) ⟨m, fc⟩ =
      dispatchAll env ((pastes.take (matchPos pastes m)).reverse) ⟨m, fc⟩ := by
  cases pastes with
  | nil => exact absurd rfl h
  | cons p0 rest => simp [doCycle, fetchNewPastesFile, hm]

/-! ## Concrete pastes and environments used by witnesses -/

def pA : Paste := ⟨"a", 1⟩

def pB : Paste := ⟨"b", 2⟩

def pC : Paste := ⟨"c", 3⟩

/-- Environment in which the raw-body fetch, the callback and the state
write always succeed. -/
def envOk : Env :=
  ⟨fun _ => .ok "body", fun _ _ => .ok (), fun _ => .ok ()⟩

/-! ## C1 -/

/-- Claim C1: Cursor-variant delta, marker found: when the stored `lastKey`
occurs at position `i = front.length` of the window `W = front ++ pi ::
back` (keys unique, marker set), the detected new items are `W[0..i)`
(returned newest-first by both variants' `fetchNewPastes`, with the
non-persisted variant moving the marker to `W[0].key` at once), the
state-file cycle dispatches exactly those items reversed to oldest-first,
and its marker afterwards is `W[0].key`, the newest key of the window. -/
theorem C1_cursor_delta_marker_found (env : Env) (front back : List Paste) (pi : Paste)
    (lastKey fc : String) (hk : pi.key = lastKey) (hne : lastKey ≠ "")
    (hnd : ((front ++ pi :: back).map Paste.key).Nodup)
    (hok : ∀ p ∈ front, dispatchOk env p) :
    fetchNewPastesCursor lastKey (front ++ pi :: back)
        = .ok (front, headKey (front ++ pi :: back)) ∧
    fetchNewPastesFile lastKey (front ++ pi :: back) = .ok (front, lastKey) ∧
    (doCycle env (.ok (front ++ pi :: back)) ⟨lastKey, fc⟩).1 = front.reverse ∧
    (doCycle env (.ok (front ++ pi :: back)) ⟨lastKey, fc⟩).2.2 = .ok () ∧
    (doCycle env (.ok (front ++ pi :: back)) ⟨lastKey, fc⟩).2.1.topKey
        = headKey (front ++ pi :: back) := by
  have hnd2 : (pi.key :: back.map Paste.key).Nodup := by
    rw [List.map_append, List.map_cons] at hnd
    exact hnd.of_append_right
  have hback : ∀ q ∈ back, q.key ≠ lastKey := by
    intro q hq hqk
    have hmem : q.key ∈ back.map Paste.key := List.mem_map_of_mem Paste.key hq
    rw [hqk, ← hk] at hmem
    exact (List.nodup_cons.mp hnd2).1 hmem
  have hmatch : matchPos (front ++ pi :: back) lastKey = front.length :=
    matchPos_found lastKey front back pi hk hback
  have hwne : front ++ pi :: back ≠ [] := by simp
  have hcur := fetchNewPastesCursor_ne lastKey (front ++ pi :: back) hwne hne
  have hfile := fetchNewPastesFile_ne lastKey (front ++ pi :: back) hwne hne
  rw [hmatch, List.take_left] at hcur hfile
  have hcyc := doCycle_marker env (front ++ pi :: back) lastKey fc hwne hne
  rw [hmatch, List.take_left,
    dispatchAll_ok env front.reverse ⟨lastKey, fc⟩
      (fun p hp => hok p (List.mem_reverse.mp hp))] at hcyc
  refine ⟨hcur, hfile, by rw [hcyc], by rw [hcyc], ?_⟩
  rw [hcyc]
  cases front with
  | nil => simp [lastState, headKey, ← hk]
  | cons f0 fs =>
    show (lastState (f0 :: fs).reverse ⟨lastKey, fc⟩).topKey = _
    unfold lastState
    rw [List.getLast?_reverse]
    simp [headKey]

/-- Witness for C1 at the spec's scenario: window `[c, b, a]`, marker
`"a"`. -/
theorem C1_witness :
    fetchNewPastesCursor "a" ([pC, pB] ++ pA :: [])
        = .ok ([pC, pB], headKey ([pC, pB] ++ pA :: [])) ∧
    fetchNewPastesFile "a" ([pC, pB] ++ pA :: []) = .ok ([pC, pB], "a") ∧
    (doCycle envOk (.ok ([pC, pB] ++ pA :: [])) ⟨"a", "a"⟩).1 = [pC, pB].reverse ∧
    (doCycle envOk (.ok ([pC, pB] ++ pA :: [])) ⟨"a", "a"⟩).2.2 = .ok () ∧
    (doCycle envOk (.ok ([pC, pB] ++ pA :: [])) ⟨"a", "a"⟩).2.1.topKey
        = headKey ([pC, pB] ++ pA :: []) :=
  C1_cursor_delta_marker_found envOk [pC, pB] [] pA "a" "a" rfl (by decide)
    (by decide) (fun p _ => ⟨rfl, rfl⟩)

/-! ## C4 -/

/-- Claim C4: Cursor-variant first run: on a non-empty window with the marker
unset both cursor variants return zero new items and set the marker to the
newest item's key; the state-file cycle dispatches nothing and leaves the
file untouched. -/
theorem C4_first_run (env : Env) (p0 : Paste) (rest : List Paste) (fc : String) :
    fetchNewPastesCursor "" (p0 :: rest) = .ok ([], p0.key) ∧
    fetchNewPastesFile "" (p0 :: rest) = .ok ([], p0.key) ∧
    doCycle env (.ok (p0 :: rest)) ⟨"", fc⟩ = ([], ⟨p0.key, fc⟩, .ok ()) := by
  refine ⟨by simp [fetchNewPastesCursor], by simp [fetchNewPastesFile], ?_⟩
  simpa [headKey] using doCycle_first_run env (p0 :: rest) fc (by simp)

/-! ## C7 -/

/-- Claim C7: Empty window: both cursor variants' cycles fail with the
"no pastes available" error (the spec names it "no items available" in its
item terminology) whatever the marker is; the marker and the persisted
state file are unchanged and no callback is invoked. -/
theorem C7_empty_window (env : Env) (st : MonState) (k : String) :
    doCycle env (.ok []) st = ([], st, .error "fetch pastes: no pastes available") ∧
    doCycleCursor env (.ok []) k = ([], k, .error "no pastes available") := by
  constructor <;> rfl

/-! ## C2 -/

/-- Claim C2 counterexample: On the single-item window `[b]` with marker
`"z"` (not present), the state-file cycle detects and dispatches nothing —
as the claim's formula `W[0..len-1)` prescribes — but its updated marker
stays `"z"`, not `W[0].key = "b"` as the claim states. -/
theorem C2_counterexample :
    (doCycle envOk (.ok [pB]) ⟨"z", "z"⟩).1 = (([pB].take ([pB].length - 1)).reverse) ∧
    (doCycle envOk (.ok [pB]) ⟨"z", "z"⟩).2.1.topKey = "z" ∧
    headKey [pB] = "b" ∧ ("z" : String) ≠ "b" := by
  exact ⟨rfl, rfl, rfl, by decide⟩

/-- Claim C2, amended: Marker rotated out: for a non-empty window
`W = l ++ [q]` containing no item keyed `lastKey` (marker set), both
variants detect `W[0..len-1)` — exactly one item, the oldest slot `q`, is
dropped — and the state-file cycle dispatches them reversed to
oldest-first.  The non-persisted variant always moves its marker to
`W[0].key`; the state-file cycle's marker is `W[0].key` whenever the
window has at least two items, and is unchanged (still `lastKey`) for a
single-item window. -/
theorem C2_gap_amended (env : Env) (l : List Paste) (q : Paste)
    (lastKey fc : String) (hne : lastKey ≠ "")
    (hnotin : ∀ p ∈ l ++ [q], p.key ≠ lastKey)
    (hok : ∀ p ∈ l, dispatchOk env p) :
    fetchNewPastesCursor lastKey (l ++ [q]) = .ok (l, headKey (l ++ [q])) ∧
    fetchNewPastesFile lastKey (l ++ [q]) = .ok (l, lastKey) ∧
    (doCycle env (.ok (l ++ [q])) ⟨lastKey, fc⟩).1 = l.reverse ∧
    (doCycle env (.ok (l ++ [q])) ⟨lastKey, fc⟩).2.2 = .ok () ∧
    (l ≠ [] →
      (doCycle env (.ok (l ++ [q])) ⟨lastKey, fc⟩).2.1.topKey = headKey (l ++ [q])) ∧
    (l = [] → (doCycle env (.ok (l ++ [q])) ⟨lastKey, fc⟩).2.1.topKey = lastKey) := by
  have hmatch : matchPos (l ++ [q]) lastKey = l.length := by
    rw [matchPos_not_found lastKey (l ++ [q]) hnotin]
    simp
  have hwne : l ++ [q] ≠ [] := by simp
  have hcur := fetchNewPastesCursor_ne lastKey (l ++ [q]) hwne hne
  have hfile := fetchNewPastesFile_ne lastKey (l ++ [q]) hwne hne
  rw [hmatch, List.take_left] at hcur hfile
  have hcyc := doCycle_marker env (l ++ [q]) lastKey fc hwne hne
  rw [hmatch, List.take_left,
    dispatchAll_ok env l.reverse ⟨lastKey, fc⟩
      (fun p hp => hok p (List.mem_reverse.mp hp))] at hcyc
  refine ⟨hcur, hfile, by rw [hcyc], by rw [hcyc], ?_, ?_⟩
  · intro hl
    rw [hcyc]
    cases l with
    | nil => exact absurd rfl hl
    | cons f0 fs =>
      show (lastState (f0 :: fs).reverse ⟨lastKey, fc⟩).topKey = _
      unfold lastState
      rw [List.getLast?_reverse]
      simp [headKey]
  · intro hl
    subst hl
    rw [hcyc]
    rfl

/-- Witness for the amended C2 at the spec's gap scenario: window
`[c, b, a]`, marker `"z"` → items `b, c` delivered oldest-first, `a`
dropped, marker becomes `"c"`. -/
theorem C2_witness :
    fetchNewPastesCursor "z" ([pC, pB] ++ [pA]) = .ok ([pC, pB], headKey ([pC, pB] ++ [pA])) ∧
    fetchNewPastesFile "z" ([pC, pB] ++ [pA]) = .ok ([pC, pB], "z") ∧
    (doCycle envOk (.ok ([pC, pB] ++ [pA])) ⟨"z", "s"⟩).1 = [pC, pB].reverse ∧
    (doCycle envOk (.ok ([pC, pB] ++ [pA])) ⟨"z", "s"⟩).2.2 = .ok () ∧
    ([pC, pB] ≠ ([] : List Paste) →
      (doCycle envOk (.ok ([pC, pB] ++ [pA])) ⟨"z", "s"⟩).2.1.topKey = headKey ([pC, pB] ++ [pA])) ∧
    ([pC, pB] = ([] : List Paste) →
      (doCycle envOk (.ok ([pC, pB] ++ [pA])) ⟨"z", "s"⟩).2.1.topKey = "z") :=
  C2_gap_amended envOk [pC, pB] pA "z" "s" (by decide) (by decide)
    (fun p _ => ⟨rfl, rfl⟩)

/-! ## C6 -/

theorem lastState_reverse_cons (p0 : Paste) (l : List Paste) (st : MonState) :
    lastState (p0 :: l).reverse st = ⟨p0.key, p0.key⟩ := by
  unfold lastState
  rw [List.getLast?_reverse]
  rfl

/-- After a fully successful cycle on a non-empty window the marker is
either the newest key, or unchanged with the scan having matched at
position 0. -/
theorem doCycle_ok_topKey (env : Env) (p0 : Paste) (rest : List Paste) (m fc : String)
    (hok : ∀ p ∈ p0 :: rest, dispatchOk env p) :
    (doCycle env (.ok (p0 :: rest)) ⟨m, fc⟩).2.2 = .ok () ∧
    ((doCycle env (.ok (p0 :: rest)) ⟨m, fc⟩).2.1.topKey = p0.key ∨
      ((doCycle env (.ok (p0 :: rest)) ⟨m, fc⟩).2.1.topKey = m ∧
        matchPos (p0 :: rest) m = 0)) := by
  by_cases hm : m = ""
  · subst hm
    rw [doCycle_first_run env (p0 :: rest) fc (by simp)]
    exact ⟨rfl, Or.inl rfl⟩
  · have hsub : ∀ p ∈ ((p0 :: rest).take (matchPos (p0 :: rest) m)).reverse,
        dispatchOk env p :=
      fun p hp => hok p (List.mem_of_mem_take (List.mem_reverse.mp hp))
    rw [doCycle_marker env (p0 :: rest) m fc (by simp) hm, dispatchAll_ok env _ _ hsub]
    refine ⟨rfl, ?_⟩
    cases hk : matchPos (p0 :: rest) m with
    | zero => exact Or.inr ⟨rfl, rfl⟩
    | succ n =>
      left
      rw [List.take_succ_cons, lastState_reverse_cons]

/-- A cycle whose marker is unset, equals the newest key (keys unique), or
scanned to position 0 detects nothing and succeeds. -/
theorem doCycle_nothing_new (env : Env) (p0 : Paste) (rest : List Paste) (m fc : String)
    (hcase : m = "" ∨ m = p0.key ∨ matchPos (p0 :: rest) m = 0)
    (hnd : p0.key ∉ rest.map Paste.key) :
    (doCycle env (.ok (p0 :: rest)) ⟨m, fc⟩).1 = [] ∧
    (doCycle env (.ok (p0 :: rest)) ⟨m, fc⟩).2.2 = .ok () := by
  by_cases hm : m = ""
  · subst hm
    rw [doCycle_first_run env _ fc (by simp)]
    exact ⟨rfl, rfl⟩
  · have h0 : matchPos (p0 :: rest) m = 0 := by
      rcases hcase with h | h | h
      · exact absurd h hm
      · subst h
        have hback : ∀ q ∈ rest, q.key ≠ p0.key := by
          intro q hq hqk
          exact hnd (hqk ▸ List.mem_map_of_mem Paste.key hq)
        simpa using matchPos_found p0.key [] rest p0 rfl hback
      · exact h
    rw [doCycle_marker env _ m fc (by simp) hm, h0]
    exact ⟨rfl, rfl⟩

/-- Claim C6: Idempotence of the cursor delta: a second cycle on the same
window, starting from the state the first (fully successful) cycle
produced, detects and dispatches zero new items. -/
theorem C6_idempotent (env : Env) (p0 : Paste) (rest : List Paste) (m fc : String)
    (hnd : ((p0 :: rest).map Paste.key).Nodup)
    (hok : ∀ p ∈ p0 :: rest, dispatchOk env p) :
    (doCycle env (.ok (p0 :: rest))
        ((doCycle env (.ok (p0 :: rest)) ⟨m, fc⟩).2.1)).1 = [] ∧
    (doCycle env (.ok (p0 :: rest))
        ((doCycle env (.ok (p0 :: rest)) ⟨m, fc⟩).2.1)).2.2 = .ok () := by
  have hnd0 : p0.key ∉ rest.map Paste.key := by
    rw [List.map_cons] at hnd
    exact (List.nodup_cons.mp hnd).1
  obtain ⟨-, hcase⟩ := doCycle_ok_topKey env p0 rest m fc hok
  rcases hcase with h | ⟨heq, h0⟩
  · exact doCycle_nothing_new env p0 rest _ _ (Or.inr (Or.inl h)) hnd0
  · exact doCycle_nothing_new env p0 rest _ _
      (Or.inr (Or.inr (by rw [heq]; exact h0))) hnd0

/-- Witness for C6: window `[c, b, a]`, marker `"a"`; the second cycle
from the first cycle's resulting state dispatches nothing. -/
theorem C6_witness :
    (doCycle envOk (.ok (pC :: [pB, pA]))
        ((doCycle envOk (.ok (pC :: [pB, pA])) ⟨"a", "a"⟩).2.1)).1 = [] ∧
    (doCycle envOk (.ok (pC :: [pB, pA]))
        ((doCycle envOk (.ok (pC :: [pB, pA])) ⟨"a", "a"⟩).2.1)).2.2 = .ok () :=
  C6_idempotent envOk pC [pB, pA] "a" "a" (by decide) (fun p _ => ⟨rfl, rfl⟩)

/-! ## C3 -/

/-- Claim C3 counterexample: In the cache variant a poll cycle detecting two
new items invokes the callback in window (newest-first) order: window
`[b, a]` against an empty cache dispatches `b` then `a`, not the
oldest-to-newest order `a` then `b` the claim states for every cycle. -/
theorem C3_counterexample :
    (cacheCycle envOk (.ok [pB, pA]) []).1 = [pB, pA] ∧
    ([pB, pA] : List Paste) ≠ [pA, pB] :=
  ⟨rfl, by decide⟩

/-- Environment whose callback fails exactly on key `"b"`. -/
def envFailB : Env :=
  ⟨fun _ => .ok "body",
    fun p _ => if p.key = "b" then .error "callback boom" else .ok (),
    fun _ => .ok ()⟩

/-- Claim C3, amended: Dispatch ordering: in the state-file design a cycle
that detected the items `l` (newest-first) invokes the callback exactly
once per item in oldest-to-newest order `l.reverse`; after all dispatches
succeed the marker and the state file hold the newest key, and when the
dispatch of an item fails, the state (hence the persisted marker) is the
one written by the last successfully dispatched item.  In the cache
variant and the non-persisted cursor variant the callback also runs once
per detected item, but in window (newest-to-oldest) order. -/
theorem C3_dispatch_order_amended (envA envB : Env) (l l1 l2 : List Paste) (p : Paste)
    (st st' : MonState) (e : String)
    (h1 : ∀ q ∈ l, dispatchOk envA q)
    (h2 : ∀ q ∈ l1, dispatchOk envB q)
    (h3 : processPaste envB p = .error e) :
    dispatchAll envA l.reverse st = (l.reverse, lastState l.reverse st, .ok ()) ∧
    (l ≠ [] → (dispatchAll envA l.reverse st).2.1 = ⟨headKey l, headKey l⟩) ∧
    dispatchAll envB (l1 ++ p :: l2) st' =
      (l1 ++ invoked envB p, lastState l1 st', .error ("process paste: " ++ e)) ∧
    dispatchF envA l = (l, .ok ()) := by
  have hs : ∀ q ∈ l.reverse, dispatchOk envA q :=
    fun q hq => h1 q (List.mem_reverse.mp hq)
  refine ⟨dispatchAll_ok envA l.reverse st hs, fun hl => ?_,
    dispatchAll_fail_process envB l1 p l2 st' e h2 h3,
    dispatchF_ok envA l (fun q hq => (h1 q hq).1)⟩
  rw [dispatchAll_ok envA l.reverse st hs]
  cases l with
  | nil => exact absurd rfl hl
  | cons q rest => rw [lastState_reverse_cons]; rfl

/-- Witness for the amended C3: three detected items dispatched
oldest-first with the marker ending at the newest key; a failing dispatch
of `b` after a successful dispatch of `a` leaves the persisted marker at
`"a"`; forward dispatch preserves window order. -/
theorem C3_witness :
    dispatchAll envOk [pC, pB, pA].reverse ⟨"z", "z"⟩ =
      ([pC, pB, pA].reverse, lastState [pC, pB, pA].reverse ⟨"z", "z"⟩, .ok ()) ∧
    ([pC, pB, pA] ≠ ([] : List Paste) →
      (dispatchAll envOk [pC, pB, pA].reverse ⟨"z", "z"⟩).2.1 =
        ⟨headKey [pC, pB, pA], headKey [pC, pB, pA]⟩) ∧
    dispatchAll envFailB ([pA] ++ pB :: [pC]) ⟨"z", "z"⟩ =
      ([pA] ++ invoked envFailB pB, lastState [pA] ⟨"z", "z"⟩,
        .error ("process paste: " ++ "callback boom")) ∧
    dispatchF envOk [pC, pB, pA] = ([pC, pB, pA], .ok ()) :=
  C3_dispatch_order_amended envOk envFailB [pC, pB, pA] [pA] [pC] pB
    ⟨"z", "z"⟩ ⟨"z", "z"⟩ "callback boom"
    (fun q _ => ⟨rfl, rfl⟩)
    (by
      intro q hq
      rw [List.mem_singleton] at hq
      subst hq
      exact ⟨rfl, rfl⟩)
    rfl

/-! ## C8 -/

/-- Environment whose state write fails exactly on key `"b"`. -/
def envWriteFail : Env :=
  ⟨fun _ => .ok "body", fun _ _ => .ok (),
    fun k => if k = "b" then .error "disk full" else .ok ()⟩

/-- Claim C8: Fail-loud poll loop of the state-file variant: a fetch error or
an empty window makes `Do` return the wrapped error at once with later
ticks never run; inside a cycle, a raw-body or callback error
(`processPaste` failing) or a state-write error aborts the dispatch loop
on the spot — the remaining items are never touched — and any erroring
cycle makes the loop return exactly that error with no retry. -/
theorem C8_fail_loud (env : Env) (m e : String) (ws : List (Except String (List Paste)))
    (st st' : MonState) (l1 l2 : List Paste) (p : Paste)
    (w : Except String (List Paste))
    (h1 : ∀ q ∈ l1, dispatchOk env q) :
    runDo env (.error m :: ws) st =
      ([], st, .error ("fetch pastes: recent pastes: " ++ m)) ∧
    runDo env (.ok [] :: ws) st = ([], st, .error "fetch pastes: no pastes available") ∧
    (processPaste env p = .error e →
      dispatchAll env (l1 ++ p :: l2) st' =
        (l1 ++ invoked env p, lastState l1 st', .error ("process paste: " ++ e))) ∧
    (processPaste env p = .ok () → env.writeState p.key = .error e →
      dispatchAll env (l1 ++ p :: l2) st' = (l1 ++ [p], lastState l1 st', .error e)) ∧
    ((doCycle env w st).2.2 = .error e →
      runDo env (w :: ws) st = ((doCycle env w st).1, (doCycle env w st).2.1, .error e)) := by
  refine ⟨rfl, rfl,
    fun hp => dispatchAll_fail_process env l1 p l2 st' e h1 hp,
    fun hp hw => dispatchAll_fail_write env l1 p l2 st' e h1 hp hw,
    fun herr => ?_⟩
  show (match (doCycle env w st).2.2 with
    | .error e => ((doCycle env w st).1, (doCycle env w st).2.1, Except.error e)
    | .ok _ =>
      let r := runDo env ws (doCycle env w st).2.1
      ((doCycle env w st).1 ++ r.1, r.2.1, r.2.2)) =
    ((doCycle env w st).1, (doCycle env w st).2.1, Except.error e)
  rw [herr]

/-- Witness for C8 in an environment whose state write fails on key `"b"`:
fetch error and empty window abort the loop; dispatching `[a, b, c]`
aborts at `b`'s write with `a` persisted and `c` untouched. -/
theorem C8_witness :
    runDo envWriteFail (.error "net down" :: [.ok [pC]]) ⟨"a", "a"⟩ =
      ([], ⟨"a", "a"⟩, .error ("fetch pastes: recent pastes: " ++ "net down")) ∧
    runDo envWriteFail (.ok [] :: [.ok [pC]]) ⟨"a", "a"⟩ =
      ([], ⟨"a", "a"⟩, .error "fetch pastes: no pastes available") ∧
    dispatchAll envWriteFail ([pA] ++ pB :: [pC]) ⟨"z", "z"⟩ =
      ([pA] ++ [pB], lastState [pA] ⟨"z", "z"⟩, .error "disk full") := by
  obtain ⟨w1, w2, -, w4, -⟩ :=
    C8_fail_loud envWriteFail "net down" "disk full" [.ok [pC]] ⟨"a", "a"⟩ ⟨"z", "z"⟩
      [pA] [pC] pB (.ok [])
      (by
        intro q hq
        rw [List.mem_singleton] at hq
        subst hq
        exact ⟨rfl, rfl⟩)
  exact ⟨w1, w2, w4 rfl rfl⟩

/-! ## C5 -/

theorem cacheGet_set (c : Cache) (k k' : String) (v : Nat) :
    cacheGet (cacheSet c k v) k' = if k' = k then some v else cacheGet c k' := rfl

/-- Scan step, unchanged token: the item is skipped and the cache kept. -/
theorem fetchNewPastesCache_skip (c : Cache) (q : Paste) (rest : List Paste)
    (hg : cacheGet c q.key = some q.date) :
    fetchNewPastesCache c (q :: rest) = fetchNewPastesCache c rest := by
  conv_lhs => rw [fetchNewPastesCache]
  simp [hg]

/-- Scan step, changed token: the item is classified new and its entry
updated. -/
theorem fetchNewPastesCache_new_changed (c : Cache) (q : Paste) (rest : List Paste)
    (v : Nat) (hg : cacheGet c q.key = some v) (hv : v ≠ q.date) :
    fetchNewPastesCache c (q :: rest) =
      (q :: (fetchNewPastesCache (cacheSet c q.key q.date) rest).1,
        (fetchNewPastesCache (cacheSet c q.key q.date) rest).2) := by
  conv_lhs => rw [fetchNewPastesCache]
  simp [hg, hv]

/-- Scan step, absent key: the item is classified new and its entry
recorded. -/
theorem fetchNewPastesCache_new_absent (c : Cache) (q : Paste) (rest : List Paste)
    (hg : cacheGet c q.key = none) :
    fetchNewPastesCache c (q :: rest) =
      (q :: (fetchNewPastesCache (cacheSet c q.key q.date) rest).1,
        (fetchNewPastesCache (cacheSet c q.key q.date) rest).2) := by
  conv_lhs => rw [fetchNewPastesCache]
  simp [hg]

/-- Every item classified new by the cache scan comes from the window. -/
theorem fetchNewPastesCache_subset (w : List Paste) :
    ∀ c : Cache, ∀ p ∈ (fetchNewPastesCache c w).1, p ∈ w := by
  induction w with
  | nil =>
    intro c p hp
    simp [fetchNewPastesCache] at hp
  | cons q rest ih =>
    intro c p hp
    cases hg : cacheGet c q.key with
    | some v =>
      by_cases hv : v = q.date
      · subst hv
        rw [fetchNewPastesCache_skip c q rest hg] at hp
        exact List.mem_cons_of_mem q (ih c p hp)
      · rw [fetchNewPastesCache_new_changed c q rest v hg hv] at hp
        rcases List.mem_cons.mp hp with h | h
        · exact h ▸ List.mem_cons_self q rest
        · exact List.mem_cons_of_mem q (ih _ p h)
    | none =>
      rw [fetchNewPastesCache_new_absent c q rest hg] at hp
      rcases List.mem_cons.mp hp with h | h
      · exact h ▸ List.mem_cons_self q rest
      · exact List.mem_cons_of_mem q (ih _ p h)

/-- Characterisation of one cache scan over a window with unique keys: an
item is classified new exactly when its cached token differs from its
date, every item's entry is recorded afterwards, and other keys are
untouched. -/
theorem fetchNewPastesCache_char (w : List Paste) : ∀ c : Cache,
    (w.map Paste.key).Nodup →
    (∀ p ∈ w, (p ∈ (fetchNewPastesCache c w).1 ↔ cacheGet c p.key ≠ some p.date)) ∧
    (∀ p ∈ w, cacheGet (fetchNewPastesCache c w).2 p.key = some p.date) ∧
    (∀ k, k ∉ w.map Paste.key → cacheGet (fetchNewPastesCache c w).2 k = cacheGet c k) := by
  induction w with
  | nil =>
    intro c _
    refine ⟨by simp, by simp, fun k _ => rfl⟩
  | cons q rest ih =>
    intro c hnd
    rw [List.map_cons, List.nodup_cons] at hnd
    obtain ⟨hqk, hndr⟩ := hnd
    have hqrest : q ∉ rest := fun h => hqk (List.mem_map_of_mem Paste.key h)
    have hkey : ∀ p ∈ rest, p.key ≠ q.key := by
      intro p hp hpq
      exact hqk (hpq ▸ List.mem_map_of_mem Paste.key hp)
    cases hg : cacheGet c q.key with
    | some v =>
      by_cases hv : v = q.date
      · -- unchanged token: skip, cache and list as for the tail
        subst hv
        have hred := fetchNewPastesCache_skip c q rest hg
        obtain ⟨ih1, ih2, ih3⟩ := ih c hndr
        refine ⟨?_, ?_, ?_⟩
        · intro p hp
          rcases List.mem_cons.mp hp with h | h
          · subst h
            rw [hred]
            constructor
            · intro hmem
              exact absurd (fetchNewPastesCache_subset rest c p hmem) hqrest
            · intro hne
              exact absurd hg hne
          · rw [hred]
            exact ih1 p h
        · intro p hp
          rcases List.mem_cons.mp hp with h | h
          · subst h
            rw [hred, ih3 p.key hqk, hg]
          · rw [hred]
            exact ih2 p h
        · intro k hk
          rw [List.map_cons, List.mem_cons, not_or] at hk
          rw [hred]
          exact ih3 k hk.2
      · -- changed token: classified new, entry updated
        have hred := fetchNewPastesCache_new_changed c q rest v hg hv
        obtain ⟨ih1, ih2, ih3⟩ := ih (cacheSet c q.key q.date) hndr
        refine ⟨?_, ?_, ?_⟩
        · intro p hp
          rcases List.mem_cons.mp hp with h | h
          · subst h
            simp only [hred, List.mem_cons, true_or, true_iff]
            rw [hg]
            intro hh
            exact hv (Option.some.inj hh)
          · simp only [hred, List.mem_cons]
            have hpq : p ≠ q := fun hh => (hkey p h) (hh ▸ rfl)
            rw [ih1 p h, cacheGet_set, if_neg (hkey p h)]
            constructor
            · intro hc
              rcases hc with hc | hc
              · exact absurd hc hpq
              · exact hc
            · exact Or.inr
        · intro p hp
          rcases List.mem_cons.mp hp with h | h
          · subst h
            simp only [hred]
            rw [ih3 p.key hqk, cacheGet_set, if_pos rfl]
          · simp only [hred]
            exact ih2 p h
        · intro k hk
          rw [List.map_cons, List.mem_cons, not_or] at hk
          simp only [hred]
          rw [ih3 k hk.2, cacheGet_set, if_neg hk.1]
    | none =>
      -- absent key: classified new, entry recorded
      have hred := fetchNewPastesCache_new_absent c q rest hg
      obtain ⟨ih1, ih2, ih3⟩ := ih (cacheSet c q.key q.date) hndr
      refine ⟨?_, ?_, ?_⟩
      · intro p hp
        rcases List.mem_cons.mp hp with h | h
        · subst h
          simp only [hred, List.mem_cons, true_or, true_iff]
          rw [hg]
          exact fun hh => Option.noConfusion hh
        · simp only [hred, List.mem_cons]
          have hpq : p ≠ q := fun hh => (hkey p h) (hh ▸ rfl)
          rw [ih1 p h, cacheGet_set, if_neg (hkey p h)]
          constructor
          · intro hc
            rcases hc with hc | hc
            · exact absurd hc hpq
            · exact hc
          · exact Or.inr
      · intro p hp
        rcases List.mem_cons.mp hp with h | h
        · subst h
          simp only [hred]
          rw [ih3 p.key hqk, cacheGet_set, if_pos rfl]
        · simp only [hred]
          exact ih2 p h
      · intro k hk
        rw [List.map_cons, List.mem_cons, not_or] at hk
        simp only [hred]
        rw [ih3 k hk.2, cacheGet_set, if_neg hk.1]

/-- Claim C5: Cache-variant classification: over a window with unique keys,
an item is classified new exactly when the cache holds no entry for its
key or an entry with a different timestamp (so an unchanged pair is
skipped and a changed timestamp is new exactly once per change), every
processed item's key-to-timestamp entry is recorded, and re-scanning the
same window against the updated cache classifies nothing as new. -/
theorem C5_cache_classification (c : Cache) (w : List Paste)
    (hnd : (w.map Paste.key).Nodup) :
    (∀ p ∈ w, (p ∈ (fetchNewPastesCache c w).1 ↔ cacheGet c p.key ≠ some p.date)) ∧
    (∀ p ∈ w, cacheGet (fetchNewPastesCache c w).2 p.key = some p.date) ∧
    (fetchNewPastesCache (fetchNewPastesCache c w).2 w).1 = [] := by
  obtain ⟨h1, h2, -⟩ := fetchNewPastesCache_char w c hnd
  obtain ⟨g1, -, -⟩ := fetchNewPastesCache_char w (fetchNewPastesCache c w).2 hnd
  refine ⟨h1, h2, ?_⟩
  rw [List.eq_nil_iff_forall_not_mem]
  intro p hp
  have hpw := fetchNewPastesCache_subset w (fetchNewPastesCache c w).2 p hp
  exact (g1 p hpw).mp hp (h2 p hpw)

/-- Witness for C5: cache holding `a ↦ 5`, window `[b, a]` — `b` is absent
hence new, `a`'s timestamp changed from 5 to 1 hence new; the second scan
finds nothing. -/
theorem C5_witness :
    (∀ p ∈ [pB, pA],
      (p ∈ (fetchNewPastesCache [("a", 5)] [pB, pA]).1 ↔
        cacheGet [("a", 5)] p.key ≠ some p.date)) ∧
    (∀ p ∈ [pB, pA],
      cacheGet (fetchNewPastesCache [("a", 5)] [pB, pA]).2 p.key = some p.date) ∧
    (fetchNewPastesCache (fetchNewPastesCache [("a", 5)] [pB, pA]).2 [pB, pA]).1 = [] :=
  C5_cache_classification [("a", 5)] [pB, pA] (by decide)

/-! ## C9 -/

/-- An item already cached with its current timestamp is never classified
new by a scan of a window in which its key only ever carries that
timestamp, and its cache entry survives the scan. -/
theorem cacheNoRedeliver_window (p : Paste) (w : List Paste) : ∀ c : Cache,
    cacheGet c p.key = some p.date →
    (∀ q ∈ w, q.key = p.key → q = p) →
    p ∉ (fetchNewPastesCache c w).1 ∧
    cacheGet (fetchNewPastesCache c w).2 p.key = some p.date := by
  induction w with
  | nil =>
    intro c hc _
    exact ⟨by simp [fetchNewPastesCache], hc⟩
  | cons q rest ih =>
    intro c hc hk
    have hkrest : ∀ r ∈ rest, r.key = p.key → r = p :=
      fun r hr => hk r (List.mem_cons_of_mem q hr)
    by_cases hq : q.key = p.key
    · have hqp : q = p := hk q (by simp) hq
      subst hqp
      rw [fetchNewPastesCache_skip c q rest hc]
      exact ih c hc hkrest
    · have hset : cacheGet (cacheSet c q.key q.date) p.key = some p.date := by
        rw [cacheGet_set, if_neg (fun hh => hq hh.symm)]
        exact hc
      have hnp : p ≠ q := fun hh => hq (hh ▸ rfl)
      cases hg : cacheGet c q.key with
      | some v =>
        by_cases hv : v = q.date
        · subst hv
          rw [fetchNewPastesCache_skip c q rest hg]
          exact ih c hc hkrest
        · obtain ⟨ha, hb⟩ := ih (cacheSet c q.key q.date) hset hkrest
          simp only [fetchNewPastesCache_new_changed c q rest v hg hv, List.mem_cons]
          exact ⟨fun hh => hh.elim hnp ha, hb⟩
      | none =>
        obtain ⟨ha, hb⟩ := ih (cacheSet c q.key q.date) hset hkrest
        simp only [fetchNewPastesCache_new_absent c q rest hg, List.mem_cons]
        exact ⟨fun hh => hh.elim hnp ha, hb⟩

theorem runTicksCache_cons (env : Env) (w : Except String (List Paste))
    (ws : List (Except String (List Paste))) (c : Cache) :
    runTicksCache env (w :: ws) c =
      match (cacheCycle env w c).2.2 with
      | .error e => ((cacheCycle env w c).1, (cacheCycle env w c).2.1, .error e)
      | .ok _ =>
        ((cacheCycle env w c).1 ++ (runTicksCache env ws (cacheCycle env w c).2.1).1,
          (runTicksCache env ws (cacheCycle env w c).2.1).2.1,
          (runTicksCache env ws (cacheCycle env w c).2.1).2.2) := rfl

/-- An item already cached with its current timestamp is never dispatched
by any later tick whose windows carry its key only with that timestamp. -/
theorem cacheNoRedeliver_ticks (env : Env) (p : Paste)
    (ticks : List (Except String (List Paste))) : ∀ c : Cache,
    cacheGet c p.key = some p.date →
    (∀ r ∈ ticks, ∀ w', r = .ok w' → ∀ q ∈ w', q.key = p.key → q = p) →
    p ∉ (runTicksCache env ticks c).1 := by
  induction ticks with
  | nil =>
    intro c _ _
    simp [runTicksCache]
  | cons r rest ih =>
    intro c hc hcond
    cases r with
    | error e =>
      rw [runTicksCache_cons]
      simp [cacheCycle, dispatchF]
    | ok w' =>
      have hw' : ∀ q ∈ w', q.key = p.key → q = p := hcond _ (by simp) w' rfl
      obtain ⟨hnot, hkeep⟩ := cacheNoRedeliver_window p w' c hc hw'
      have htr : p ∉ (cacheCycle env (.ok w') c).1 := by
        intro hmem
        exact hnot (dispatchF_trace_subset env (fetchNewPastesCache c w').1 p hmem)
      have hrest : p ∉ (runTicksCache env rest (cacheCycle env (.ok w') c).2.1).1 :=
        ih (fetchNewPastesCache c w').2 hkeep
          (fun r hr => hcond r (List.mem_cons_of_mem _ hr))
      rw [runTicksCache_cons]
      cases (cacheCycle env (.ok w') c).2.2 with
      | error e => exact htr
      | ok u =>
        intro hmem
        rcases List.mem_append.mp hmem with h | h
        · exact htr h
        · exact hrest h

/-- Claim C9: Initial synchronous call discards detections: `Do` of the cache
variant and of the non-persisted cursor variant drop the result of their
first `fetchNewPastes` without invoking the callback — the trace is
exactly the ticker loop's, continued from the updated cache / marker — and
in the cache variant the first window's items are recorded there, so an
item whose key and timestamp never change afterwards is never dispatched
by any later tick. -/
theorem C9_first_call_discarded (env : Env) (w : List Paste) (p0 : Paste)
    (rest : List Paste) (ticks : List (Except String (List Paste))) (c : Cache)
    (p : Paste) (hnd : (w.map Paste.key).Nodup) (hp : p ∈ w)
    (hcond : ∀ r ∈ ticks, ∀ w', r = .ok w' → ∀ q ∈ w', q.key = p.key → q = p) :
    DoCache env (.ok w) ticks c = runTicksCache env ticks (fetchNewPastesCache c w).2 ∧
    DoCursor env (.ok (p0 :: rest)) ticks "" = runTicksCursor env ticks p0.key ∧
    p ∉ (DoCache env (.ok w) ticks c).1 := by
  refine ⟨rfl, ?_, ?_⟩
  · show (match fetchNewPastesCursor "" (p0 :: rest) with
      | .error e => ([], "", .error e)
      | .ok (_, tk) => runTicksCursor env ticks tk) = runTicksCursor env ticks p0.key
    simp [fetchNewPastesCursor]
  · have hrec := (fetchNewPastesCache_char w c hnd).2.1 p hp
    exact cacheNoRedeliver_ticks env p ticks (fetchNewPastesCache c w).2 hrec hcond

/-- Witness for C9: first window `[b, a]` against an empty cache; one later
tick with the same window dispatches neither item (checked for `a`). -/
theorem C9_witness :
    DoCache envOk (.ok [pB, pA]) [.ok [pB, pA]] [] =
      runTicksCache envOk [.ok [pB, pA]] (fetchNewPastesCache [] [pB, pA]).2 ∧
    DoCursor envOk (.ok (pC :: [pB])) [.ok [pB, pA]] "" =
      runTicksCursor envOk [.ok [pB, pA]] pC.key ∧
    pA ∉ (DoCache envOk (.ok [pB, pA]) [.ok [pB, pA]] []).1 :=
  C9_first_call_discarded envOk [pB, pA] pC [pB] [.ok [pB, pA]] [] pA
    (by decide) (by decide)
    (by
      intro r hr w' hw q hq hqk
      rw [List.mem_singleton] at hr
      subst hr
      obtain rfl := Except.ok.inj hw
      rcases List.mem_cons.mp hq with h | h
      · subst h
        exact absurd hqk (by decide)
      · rw [List.mem_singleton] at h
        subst h
        rfl)

/-! ## C10 -/

/-- Claim C10: State-file round trip: after the persist step wrote key `k`,
`readState` returns `k` exactly when `k` is empty (the unset marker, via
the EOF branch) or exactly `pasteIDLen = 9` bytes long; a non-empty key of
any other length reads back zero padded or cut to the fixed 9-byte buffer,
never equal to `k`. -/
theorem C10_state_roundtrip (k : List Nat) :
    readState (writeStateBytes k) = k ↔ (k = [] ∨ k.length = pasteIDLen) := by
  unfold readState writeStateBytes
  by_cases hk : k = []
  · subst hk
    simp
  · rw [if_neg hk]
    constructor
    · intro h
      right
      have hlen := congrArg List.length h
      rw [List.length_append, List.length_take, List.length_replicate] at hlen
      unfold pasteIDLen at hlen ⊢
      omega
    · intro h
      rcases h with h | h
      · exact absurd h hk
      · rw [← h, List.take_length, Nat.sub_self]
        simp

end Pbmon
